import Mathlib

/-!
Shallow embedding of the PokerGrid card-placement game (src/src/App.tsx and
the constants module). Machine numbers are modelled as Nat/Int with explicit
32-bit truncation where the JavaScript code truncates; the transcendental
Math.sin is abstracted as an arbitrary rational-valued function parameter S,
so every statement about the generator holds for the actual sine as a special
case. Seed strings are modelled as their lists of character codes.
-/

namespace PokerGrid

/-- The four suits, from the SUITS constant. -/
inductive Suit where
  | heart | diamond | spade | club
deriving DecidableEq, Fintype

/-- The thirteen ranks, from the RANKS constant. -/
inductive Rank where
  | ace | r2 | r3 | r4 | r5 | r6 | r7 | r8 | r9 | r10 | jack | queen | king
deriving DecidableEq, Fintype

/-- A playing card: a suit and a rank. -/
structure Card where
  suit : Suit
  rank : Rank
deriving DecidableEq

/-- The four pattern kinds recognised by the engine. -/
inductive Pattern where
  | flush | straight | threeOfAKind | straightFlush
deriving DecidableEq

/-- RANK_VALUES: numeric value 1..13 of each rank. -/
def rankValue : Rank → Nat
  | .ace => 1
  | .r2 => 2
  | .r3 => 3
  | .r4 => 4
  | .r5 => 5
  | .r6 => 6
  | .r7 => 7
  | .r8 => 8
  | .r9 => 9
  | .r10 => 10
  | .jack => 11
  | .queen => 12
  | .king => 13

/-- SCORE_VALUES: base points of each pattern kind. -/
def basePoints : Pattern → Nat
  | .flush => 50
  | .straight => 100
  | .threeOfAKind => 100
  | .straightFlush => 200

/-- COMBO_MULTIPLIERS lookup at min(n,4), defaulting to 1 on a missing key,
as in the expression COMBO_MULTIPLIERS[Math.min(n, 4)] || 1. -/
def comboMultiplier (n : Nat) : Nat :=
  match min n 4 with
  | 2 => 2
  | 3 => 4
  | 4 => 8
  | _ => 1

/-- The SUITS constant, in source order. -/
def SUITS : List Suit := [.heart, .diamond, .spade, .club]

/-- The RANKS constant, in source order. -/
def RANKS : List Rank :=
  [.ace, .r2, .r3, .r4, .r5, .r6, .r7, .r8, .r9, .r10, .jack, .queen, .king]

/-- createDeck: one card per suit and rank, suit-major, as the nested loops push them. -/
def createDeck : List Card :=
  SUITS.flatMap fun s => RANKS.map fun r => ⟨s, r⟩

/-- A grid is 9 cells, each empty or holding one card (indices row-major). -/
def Grid : Type := Fin 9 → Option Card

/-- The PATTERNS constant: 3 rows, 3 columns, 2 diagonals. -/
def PATTERNS : List (List (Fin 9)) :=
  [[0, 1, 2], [3, 4, 5], [6, 7, 8],
   [0, 3, 6], [1, 4, 7], [2, 5, 8],
   [0, 4, 8], [2, 4, 6]]

/-- JavaScript ToInt32 (the |0 coercion): reduce into [-2^31, 2^31). -/
def toInt32 (x : Int) : Int := (x + 2 ^ 31) % 2 ^ 32 - 2 ^ 31

/-- One step of the seed hash: ((acc << 5) - acc) + code | 0, where the
JavaScript << operator itself truncates its result to 32 bits. -/
def hashStep (acc : Int) (code : Nat) : Int :=
  toInt32 (toInt32 (acc * 32) - acc + (code : Int))

/-- createSeededRandom's initial hash: left fold of hashStep over the seed's
character codes, starting from 0. -/
def hashSeed (codes : List Nat) : Int := codes.foldl hashStep 0

/-- One call of the generator closure: return the fractional part of
S(hash) * 10000 and post-increment the hash. S abstracts Math.sin. -/
def genStep (S : Int → ℚ) (h : Int) : ℚ × Int :=
  (Int.fract (S h * 10000), h + 1)

/-- Swap the entries at positions i and j, the identity when out of bounds
(in the shuffle both indices are always in bounds). -/
def listSwap {α : Type} (l : List α) (i j : Nat) : List α :=
  match l[i]?, l[j]? with
  | some a, some b => (l.set i b).set j a
  | _, _ => l

/-- One iteration of the Fisher-Yates loop at index i: draw r from the
generator, swap position i with position floor(r * (i+1)). -/
def shuffleStep (S : Int → ℚ) (l : List Card) (h : Int) (i : Nat) :
    List Card × Int :=
  let g := genStep S h
  let j := (g.1 * ((i : ℚ) + 1)).floor.toNat
  (listSwap l i j, g.2)

/-- The shuffle loop, running indices k, k-1, ..., 1. -/
def shuffleAux (S : Int → ℚ) : Nat → List Card → Int → List Card × Int
  | 0, l, h => (l, h)
  | Nat.succ i, l, h =>
    let p := shuffleStep S l h (i + 1)
    shuffleAux S i p.1 p.2

/-- shuffleDeck: copy the deck and run the backward Fisher-Yates pass from
index length-1 down to 1, threading the generator state. -/
def shuffleDeck (S : Int → ℚ) (l : List Card) (h : Int) : List Card × Int :=
  shuffleAux S (l.length - 1) l h

/-- The deck a session built from the given seed starts with: a fresh deck
shuffled with the generator seeded from the seed's character codes. -/
def shuffledDeck (S : Int → ℚ) (codes : List Nat) : List Card :=
  (shuffleDeck S createDeck (hashSeed codes)).1

/-- isFlush: every card has the suit of the first card. -/
def isFlush (cards : List Card) : Bool :=
  match cards with
  | [] => true
  | c :: _ => cards.all fun d => d.suit == c.suit

/-- The rank values of the cards sorted ascending, as in
cards.map(c => RANK_VALUES[c.rank]).sort((a, b) => a - b). -/
def sortedValues (cards : List Card) : List Nat :=
  List.insertionSort (· ≤ ·) (cards.map fun c => rankValue c.rank)

/-- isStraight: after sorting the values ascending, either one of the two
special wrap cases {1,12,13} and {1,2,3}, or consecutive values. -/
def isStraight (cards : List Card) : Bool :=
  match sortedValues cards with
  | [v0, v1, v2] =>
    (v0 == 1 && v1 == 12 && v2 == 13) ||
    (v0 == 1 && v1 == 2 && v2 == 3) ||
    (v1 == v0 + 1 && v2 == v1 + 1)
  | _ => false

/-- isThreeOfAKind: every card has the rank of the first card. -/
def isThreeOfAKind (cards : List Card) : Bool :=
  match cards with
  | [] => true
  | c :: _ => cards.all fun d => d.rank == c.rank

/-- getPatternType: classify a card list, first match wins. -/
def getPatternType (cards : List Card) : Option Pattern :=
  if isStraight cards && isFlush cards then some .straightFlush
  else if isFlush cards then some .flush
  else if isStraight cards then some .straight
  else if isThreeOfAKind cards then some .threeOfAKind
  else none

/-- The non-empty cards of a triple, in triple order:
pattern.map(index => grid[index]).filter(Boolean). -/
def patternCards (g : Grid) (p : List (Fin 9)) : List Card := p.filterMap g

/-- A triple is valid when all 3 cells are occupied and the cards classify:
cards.length === 3 && getPatternType(cards). -/
def isValidTriple (g : Grid) (p : List (Fin 9)) : Bool :=
  (patternCards g p).length == 3 && (getPatternType (patternCards g p)).isSome

/-- checkPatterns' validPatterns: the triples of PATTERNS that are valid. -/
def foundPatterns (g : Grid) : List (List (Fin 9)) :=
  PATTERNS.filter (isValidTriple g)

/-- The pattern kinds of the valid triples, in PATTERNS order. -/
def matchTypes (g : Grid) : List Pattern :=
  (foundPatterns g).filterMap fun p => getPatternType (patternCards g p)

/-- Number of simultaneously valid triples in this evaluation pass. -/
def comboCount (g : Grid) : Nat := (foundPatterns g).length

/-- baseTotalPoints: sum of the base points of all matched patterns. -/
def basePointsTotal (g : Grid) : Nat := ((matchTypes g).map basePoints).sum

/-- totalPoints added to the score in a pass: the base total times the combo
multiplier, and 0 when processPatterns is not invoked (no valid pattern). -/
def evalPoints (g : Grid) : Nat :=
  if comboCount g = 0 then 0
  else basePointsTotal g * comboMultiplier (comboCount g)

/-- cellsToRemove: the indices belonging to any matched triple. -/
def cellsToClear (g : Grid) : List (Fin 9) := (foundPatterns g).flatMap id

/-- Empty every cell of cellsToClear, leave the rest untouched. -/
def clearCells (g : Grid) : Grid :=
  fun i => if i ∈ cellsToClear g then none else g i

/-- The grid after the evaluation pass: cleared when processPatterns ran,
unchanged otherwise. -/
def afterPatterns (g : Grid) : Grid :=
  if comboCount g = 0 then g else clearCells g

/-- The per-pattern displayed share: Math.round of the total times the
pattern's base-point fraction (for the log only). -/
def patternShare (g : Grid) (t : Pattern) : Int :=
  round ((evalPoints g : ℚ) * (basePoints t : ℚ) / (basePointsTotal g : ℚ))

/-- One clearing-log entry: the matched kinds with their displayed point
shares, the combo count, and the total points of the pass. -/
structure LogEntry where
  details : List (Pattern × Int)
  count : Nat
  total : Nat
deriving DecidableEq

/-- The log entry processPatterns produces for grid g. -/
def logEntryOf (g : Grid) : LogEntry :=
  ⟨(matchTypes g).map fun t => (t, patternShare g t), comboCount g, evalPoints g⟩

/-- The session state: deck, grid, card in hand, score, game-over flag, log. -/
structure GameState where
  deck : List Card
  grid : Grid
  currentCard : Option Card
  score : Nat
  gameOver : Bool
  log : List LogEntry

/-- drawCard: null on an empty deck, otherwise pop the last card. -/
def drawCard (deck : List Card) : Option Card × List Card :=
  match deck.getLast? with
  | none => (none, deck)
  | some c => (some c, deck.dropLast)

/-- grid.every(cell => cell !== null). -/
def gridFullB (g : Grid) : Bool := (List.finRange 9).all fun i => (g i).isSome

/-- hasValidPatterns: some triple has all cells occupied and classifies. -/
def hasValidPatterns (g : Grid) : Bool :=
  PATTERNS.any fun p =>
    (p.all fun i => (g i).isSome) && (getPatternType (p.filterMap g)).isSome

/-- checkGameOver's condition on the current grid, deck and held card. -/
def checkGameOverB (g : Grid) (deck : List Card) (cur : Option Card) : Bool :=
  (gridFullB g && !hasValidPatterns g) || (deck.isEmpty && cur.isNone)

/-- Write card c into cell i. -/
def updateGrid (g : Grid) (i : Fin 9) (c : Card) : Grid :=
  fun j => if j = i then some c else g j

/-- placeCard as reachable from the UI: the click handler ignores the click
when the game is over, the cell is filled, or no card is held (placeCard
itself re-checks the last two); otherwise place the held card, run the
pattern pass (score, log, clearing), draw the next card, and re-evaluate
game over on the updated grid, deck and hand. -/
def placeCard (s : GameState) (i : Fin 9) : GameState :=
  if s.gameOver then s
  else if (s.grid i).isSome then s
  else
    match s.currentCard with
    | none => s
    | some c =>
      let g1 := updateGrid s.grid i c
      let g2 := afterPatterns g1
      let log2 := if comboCount g1 = 0 then s.log else logEntryOf g1 :: s.log
      let d := drawCard s.deck
      { deck := d.2
        grid := g2
        currentCard := d.1
        score := s.score + evalPoints g1
        gameOver := checkGameOverB g2 d.2 d.1
        log := log2 }

/-- The reset session built over a freshly shuffled deck: empty grid, zero
score, game not over, empty log, first card drawn. -/
def startWithDeck (l : List Card) : GameState :=
  let d := drawCard l
  { deck := d.2
    grid := fun _ => none
    currentCard := d.1
    score := 0
    gameOver := false
    log := [] }

/-- startGame with an explicit seed: build and shuffle the deck from the
seed, reset all state, draw the first card. -/
def startGame (S : Int → ℚ) (codes : List Nat) : GameState :=
  startWithDeck (shuffledDeck S codes)

/-- The remaining-card query: deck length minus one when a card is held,
computed in ordinary integer arithmetic as JavaScript numbers would. -/
def remainingCards (s : GameState) : Int :=
  (s.deck.length : Int) - (if s.currentCard.isSome then 1 else 0)

/-- The cards of the grid, in cell order. -/
def gridCards (g : Grid) : List Card := (List.finRange 9).filterMap g

/-- All cards still in play: in the deck, on the grid, or in hand. -/
def cardsOf (s : GameState) : List Card :=
  s.deck ++ gridCards s.grid ++ s.currentCard.toList

/-- The card-conservation invariant: no card occurs twice among the deck,
the grid and the hand (so in particular the deck has no duplicates, and a
card is in at most one of the three places at a time). -/
def Inv (s : GameState) : Prop := (cardsOf s).Nodup

/-- Modelled from the spec: the hash update written as the spec states it,
hash = ((hash << 5) - hash + charCode) truncated to 32 bits, reading the
shift as multiplication by 32 with a single final truncation. -/
def hashStepSpec (acc : Int) (code : Nat) : Int :=
  toInt32 (acc * 32 - acc + (code : Int))

/-- Modelled from the spec: the seed hash as a left-to-right fold of the
spec's update over the character codes, starting from 0. -/
def hashSeedSpec (codes : List Nat) : Int := codes.foldl hashStepSpec 0

/-- Modelled from the spec: a backward Fisher-Yates pass over an explicit
descending index list, swapping i with floor(generator() * (i+1)). -/
def shuffleSpecAux (S : Int → ℚ) : List Nat → List Card → Int → List Card × Int
  | [], l, h => (l, h)
  | i :: is, l, h =>
    let g := genStep S h
    shuffleSpecAux S is (listSwap l i ((g.1 * ((i : ℚ) + 1)).floor.toNat)) g.2

/-- The indices length-1 down to 1. -/
def descIndices (n : Nat) : List Nat := (List.range n).reverse.dropLast

/-- Modelled from the spec: shuffleDeck as a pass over descending indices. -/
def shuffleDeckSpec (S : Int → ℚ) (l : List Card) (h : Int) :
    List Card × Int :=
  shuffleSpecAux S (descIndices l.length) l h

/-- Modelled from the spec: straightness as the claim phrases it, the sorted
rank values are consecutive or one of the two wrap exceptions. -/
def straightSpecB (c0 c1 c2 : Card) : Bool :=
  match sortedValues [c0, c1, c2] with
  | [v0, v1, v2] =>
    (v1 == v0 + 1 && v2 == v1 + 1) ||
    (v0 == 1 && v1 == 12 && v2 == 13) ||
    (v0 == 1 && v1 == 2 && v2 == 3)
  | _ => false

/-- The list [k, k-1, ..., 1], the indices the shuffle loop visits. -/
def revCountdown : Nat → List Nat
  | 0 => []
  | k + 1 => (k + 1) :: revCountdown k

lemma toInt32_congr (x y : Int) (h : x % 2 ^ 32 = y % 2 ^ 32) :
    toInt32 x = toInt32 y := by
  unfold toInt32
  omega

lemma hashStep_eq_spec (a : Int) (c : Nat) : hashStep a c = hashStepSpec a c := by
  unfold hashStep hashStepSpec toInt32
  omega

lemma hashSeed_spec_eq (codes : List Nat) : hashSeedSpec codes = hashSeed codes := by
  unfold hashSeedSpec hashSeed
  have h : hashStepSpec = hashStep := by
    funext a c
    exact (hashStep_eq_spec a c).symm
  rw [h]

lemma descIndices_succ (k : Nat) : descIndices (k + 1) = revCountdown k := by
  induction k with
  | zero => rfl
  | succ m ih =>
    unfold descIndices at ih ⊢
    rw [List.range_succ, List.reverse_append]
    have hne : (List.range (m + 1)).reverse ≠ [] := by
      simp [List.range_succ]
    rcases hx : (List.range (m + 1)).reverse with _ | ⟨y, ys⟩
    · exact absurd hx hne
    · simp only [List.reverse_cons, List.reverse_nil, List.nil_append,
        List.singleton_append, List.dropLast_cons₂]
      rw [← hx, ih]
      rfl

lemma shuffleSpecAux_countdown (S : Int → ℚ) (k : Nat) :
    ∀ (l : List Card) (h : Int),
      shuffleSpecAux S (revCountdown k) l h = shuffleAux S k l h := by
  induction k with
  | zero => intro l h; rfl
  | succ m ih =>
    intro l h
    show shuffleSpecAux S ((m + 1) :: revCountdown m) l h = _
    rw [shuffleSpecAux, shuffleAux]
    exact ih _ _

lemma shuffleDeckSpec_eq (S : Int → ℚ) (l : List Card) (h : Int) :
    shuffleDeckSpec S l h = shuffleDeck S l h := by
  unfold shuffleDeckSpec shuffleDeck
  rcases hn : l.length with _ | n
  · rfl
  · rw [descIndices_succ, Nat.add_sub_cancel]
    exact shuffleSpecAux_countdown S n l h

lemma evalPoints_eq (g : Grid) :
    evalPoints g = basePointsTotal g * comboMultiplier (comboCount g) := by
  unfold evalPoints
  split
  · rename_i h
    have hfp : foundPatterns g = [] := List.length_eq_zero.mp h
    unfold basePointsTotal matchTypes
    rw [hfp]
    simp
  · rfl

lemma placeCard_eq (s : GameState) (i : Fin 9) (c : Card)
    (hg : s.gameOver = false) (hc : s.grid i = none)
    (hcur : s.currentCard = some c) :
    placeCard s i =
      { deck := (drawCard s.deck).2
        grid := afterPatterns (updateGrid s.grid i c)
        currentCard := (drawCard s.deck).1
        score := s.score + evalPoints (updateGrid s.grid i c)
        gameOver := checkGameOverB (afterPatterns (updateGrid s.grid i c))
          (drawCard s.deck).2 (drawCard s.deck).1
        log := if comboCount (updateGrid s.grid i c) = 0 then s.log
          else logEntryOf (updateGrid s.grid i c) :: s.log } := by
  unfold placeCard
  rw [hcur]
  simp [hg, hc]

lemma placeCard_guard_gameOver (s : GameState) (i : Fin 9)
    (h : s.gameOver = true) : placeCard s i = s := by
  simp [placeCard, h]

lemma placeCard_guard_occupied (s : GameState) (i : Fin 9)
    (h : (s.grid i).isSome = true) : placeCard s i = s := by
  unfold placeCard
  split
  · rfl
  · simp [h]

lemma placeCard_guard_nocard (s : GameState) (i : Fin 9)
    (h : s.currentCard = none) : placeCard s i = s := by
  unfold placeCard
  split
  · rfl
  · split
    · rfl
    · rw [h]

lemma count_set_add {α : Type} [DecidableEq α] (x a : α) :
    ∀ (l : List α) (n : Nat) (hn : n < l.length),
      (l.set n a).count x + (if l[n] = x then 1 else 0) =
        l.count x + (if a = x then 1 else 0) := by
  intro l
  induction l with
  | nil =>
    intro n hn
    cases hn
  | cons b t ih =>
    intro n hn
    cases n with
    | zero =>
      by_cases hax : a = x <;> by_cases hbx : b = x <;>
        simp [List.count_cons, hax, hbx]
    | succ m =>
      have hm : m < t.length := by simpa using hn
      have hrec := ih m hm
      show (b :: t.set m a).count x + _ = _
      by_cases hbx : b = x <;> simp [List.count_cons, hbx] <;> omega

lemma listSwap_perm {α : Type} [DecidableEq α] (l : List α) (i j : Nat) :
    List.Perm (listSwap l i j) l := by
  unfold listSwap
  cases hi : l[i]? with
  | none => exact List.Perm.refl l
  | some a =>
    cases hj : l[j]? with
    | none => exact List.Perm.refl l
    | some b =>
      obtain ⟨hi1, hia⟩ := List.getElem?_eq_some_iff.mp hi
      obtain ⟨hj1, hjb⟩ := List.getElem?_eq_some_iff.mp hj
      rw [List.perm_iff_count]
      intro x
      have hj2 : j < (l.set i b).length := by simpa using hj1
      have h1 := count_set_add x a (l.set i b) j hj2
      have h2 := count_set_add x b l i hi1
      rw [List.getElem_set] at h1
      rw [hia] at h2
      by_cases hij : i = j
      · have hab : a = b := by
          rw [hij] at hi
          rw [hi] at hj
          exact Option.some_inj.mp hj
        rw [if_pos hij] at h1
        subst hab
        by_cases hax : a = x <;> simp [hax] at h1 h2 ⊢ <;> omega
      · rw [if_neg hij, hjb] at h1
        by_cases hax : a = x <;> by_cases hbx : b = x <;>
          simp [hax, hbx] at h1 h2 ⊢ <;> omega

lemma shuffleAux_perm (S : Int → ℚ) (k : Nat) :
    ∀ (l : List Card) (h : Int), List.Perm (shuffleAux S k l h).1 l := by
  induction k with
  | zero => intro l h; exact List.Perm.refl l
  | succ m ih =>
    intro l h
    rw [shuffleAux]
    exact (ih _ _).trans (listSwap_perm l (m + 1) _)

lemma createDeck_nodup : createDeck.Nodup := by decide

lemma shuffledDeck_nodup (S : Int → ℚ) (codes : List Nat) :
    (shuffledDeck S codes).Nodup :=
  ((shuffleAux_perm S _ createDeck _).symm).nodup createDeck_nodup

lemma drawCard_append (d : List Card) :
    (drawCard d).2 ++ (drawCard d).1.toList = d := by
  unfold drawCard
  cases hl : d.getLast? with
  | none => simp
  | some c =>
    obtain ⟨ys, rfl⟩ := List.getLast?_eq_some_iff.mp hl
    simp

lemma drawCard_sublist (d : List Card) : (drawCard d).2.Sublist d := by
  unfold drawCard
  cases hl : d.getLast? with
  | none => exact List.Sublist.refl d
  | some c => exact List.dropLast_sublist d

lemma filterMap_update_perm {ι β : Type} [DecidableEq ι] (f : ι → Option β)
    (i : ι) (c : β) (hf : f i = none) :
    ∀ L : List ι, L.Nodup → i ∈ L →
      List.Perm (L.filterMap (fun j => if j = i then some c else f j))
        (c :: L.filterMap f) := by
  intro L
  induction L with
  | nil =>
    intro _ h
    cases h
  | cons a t ih =>
    intro hnd hmem
    have hnd' := List.nodup_cons.mp hnd
    by_cases hai : a = i
    · subst hai
      have hcong : t.filterMap (fun j => if j = a then some c else f j) =
          t.filterMap f := by
        apply List.filterMap_congr
        intro b hb
        have hba : b ≠ a := fun h => hnd'.1 (h ▸ hb)
        simp [hba]
      simp [List.filterMap_cons, hf, hcong]
    · have hmt : i ∈ t := by
        rcases List.mem_cons.mp hmem with h | h
        · exact absurd h.symm hai
        · exact h
      have hperm := ih hnd'.2 hmt
      cases hfa : f a with
      | none =>
        simp only [List.filterMap_cons, hfa, if_neg hai]
        exact hperm
      | some b =>
        simp only [List.filterMap_cons, hfa, if_neg hai]
        exact (hperm.cons b).trans (List.Perm.swap c b _)

lemma filterMap_mono_none {ι β : Type} (f g : ι → Option β)
    (h : ∀ a, g a = f a ∨ g a = none) :
    ∀ L : List ι, (L.filterMap g).Sublist (L.filterMap f) := by
  intro L
  induction L with
  | nil => exact List.Sublist.refl []
  | cons a t ih =>
    rcases h a with ha | ha
    · cases hfa : f a with
      | none =>
        rw [List.filterMap_cons_none (ha.trans hfa), List.filterMap_cons_none hfa]
        exact ih
      | some b =>
        rw [List.filterMap_cons_some (ha.trans hfa), List.filterMap_cons_some hfa]
        exact ih.cons₂ b
    · rw [List.filterMap_cons_none ha]
      cases hfa : f a with
      | none =>
        rw [List.filterMap_cons_none hfa]
        exact ih
      | some b =>
        rw [List.filterMap_cons_some hfa]
        exact ih.cons b

lemma gridCards_update_perm (g : Grid) (i : Fin 9) (c : Card)
    (hg : g i = none) :
    List.Perm (gridCards (updateGrid g i c)) (c :: gridCards g) :=
  filterMap_update_perm g i c hg (List.finRange 9)
    (List.nodup_finRange 9) (List.mem_finRange i)

lemma inv_of_fresh_deck (l : List Card) (hl : l.Nodup) :
    Inv (startWithDeck l) := by
  show ((drawCard l).2 ++ gridCards (fun _ => none) ++
    (drawCard l).1.toList).Nodup
  have hg : gridCards (fun _ => none) = ([] : List Card) := rfl
  rw [hg, List.append_nil, drawCard_append]
  exact hl

lemma gridCards_afterPatterns_sublist (g : Grid) :
    (gridCards (afterPatterns g)).Sublist (gridCards g) := by
  unfold afterPatterns
  by_cases hcc : comboCount g = 0
  · rw [if_pos hcc]
  · rw [if_neg hcc]
    exact filterMap_mono_none g (clearCells g)
      (fun a => by
        unfold clearCells
        by_cases ha : a ∈ cellsToClear g
        · exact Or.inr (if_pos ha)
        · exact Or.inl (if_neg ha))
      (List.finRange 9)

end PokerGrid

namespace PokerGrid

/-- C1: building a fresh 52-card deck and shuffling it with the generator
seeded from the seed's character codes is deterministic: for every fixed
sine function S, equal seeds give the identical ordered card sequence, so
the deck order is a pure function of the seed. -/
theorem shuffledDeck_deterministic (S : Int → ℚ) (c1 c2 : List Nat)
    (h : c1 = c2) : shuffledDeck S c1 = shuffledDeck S c2 := by
  rw [h]

theorem shuffledDeck_deterministic_witness :
    shuffledDeck (fun _ => 0) [116, 101, 115, 116] =
      shuffledDeck (fun _ => 0) [116, 101, 115, 116] :=
  shuffledDeck_deterministic (fun _ => 0) [116, 101, 115, 116]
    [116, 101, 115, 116] rfl

/-- C2: the generator follows the spec's formulas: the seed hash is the
left-to-right 32-bit-truncated fold the spec states; each generator call
returns the fractional part of S(hash) * 10000, a value in [0,1), and
increments the hash; and shuffleDeck is the backward Fisher-Yates pass over
indices length-1 down to 1 with swap index floor(generator() * (i+1)). -/
theorem generator_matches_spec :
    (∀ codes : List Nat, hashSeedSpec codes = hashSeed codes) ∧
    (∀ (S : Int → ℚ) (h : Int),
      (genStep S h).1 = Int.fract (S h * 10000) ∧
      0 ≤ (genStep S h).1 ∧ (genStep S h).1 < 1 ∧ (genStep S h).2 = h + 1) ∧
    (∀ (S : Int → ℚ) (l : List Card) (h : Int),
      shuffleDeckSpec S l h = shuffleDeck S l h) := by
  refine ⟨hashSeed_spec_eq, ?_, shuffleDeckSpec_eq⟩
  intro S h
  exact ⟨rfl, Int.fract_nonneg _, Int.fract_lt_one _, rfl⟩

/-- C3: classification of a full triple checks straightFlush, then flush,
then straight, then threeOfAKind, first match wins: a same-suit straight is
always straightFlush, and a triple matching no class yields no pattern. -/
theorem classification_priority (c0 c1 c2 : Card) :
    (isStraight [c0, c1, c2] = true → isFlush [c0, c1, c2] = true →
      getPatternType [c0, c1, c2] = some .straightFlush) ∧
    (isFlush [c0, c1, c2] = true → isStraight [c0, c1, c2] = false →
      getPatternType [c0, c1, c2] = some .flush) ∧
    (isFlush [c0, c1, c2] = false → isStraight [c0, c1, c2] = true →
      getPatternType [c0, c1, c2] = some .straight) ∧
    (isFlush [c0, c1, c2] = false → isStraight [c0, c1, c2] = false →
      isThreeOfAKind [c0, c1, c2] = true →
      getPatternType [c0, c1, c2] = some .threeOfAKind) ∧
    (isFlush [c0, c1, c2] = false → isStraight [c0, c1, c2] = false →
      isThreeOfAKind [c0, c1, c2] = false →
      getPatternType [c0, c1, c2] = none) := by
  refine ⟨?_, ?_, ?_, ?_, ?_⟩ <;> intros <;> simp_all [getPatternType]

theorem classification_priority_witness :
    getPatternType [⟨.heart, .ace⟩, ⟨.heart, .r2⟩, ⟨.heart, .r3⟩] =
      some .straightFlush :=
  (classification_priority ⟨.heart, .ace⟩ ⟨.heart, .r2⟩ ⟨.heart, .r3⟩).1
    (by decide) (by decide)

/-- C4: the straight test holds exactly when the sorted rank values are
consecutive or one of the wrap exceptions {1,12,13} and {1,2,3}; ranks
A,K,Q and A,2,3 are straights for any suits, A,J,Q is not. -/
theorem straight_characterisation :
    (∀ c0 c1 c2 : Card, isStraight [c0, c1, c2] = straightSpecB c0 c1 c2) ∧
    (∀ s0 s1 s2 : Suit,
      isStraight [⟨s0, .ace⟩, ⟨s1, .king⟩, ⟨s2, .queen⟩] = true) ∧
    (∀ s0 s1 s2 : Suit,
      isStraight [⟨s0, .ace⟩, ⟨s1, .r2⟩, ⟨s2, .r3⟩] = true) ∧
    (∀ s0 s1 s2 : Suit,
      isStraight [⟨s0, .ace⟩, ⟨s1, .jack⟩, ⟨s2, .queen⟩] = false) := by
  refine ⟨?_, fun _ _ _ => rfl, fun _ _ _ => rfl, fun _ _ _ => rfl⟩
  intro c0 c1 c2
  obtain ⟨s0, a0⟩ := c0
  obtain ⟨s1, a1⟩ := c1
  obtain ⟨s2, a2⟩ := c2
  have h1 : isStraight [⟨s0, a0⟩, ⟨s1, a1⟩, ⟨s2, a2⟩] =
      isStraight [⟨.heart, a0⟩, ⟨.heart, a1⟩, ⟨.heart, a2⟩] := rfl
  have h2 : straightSpecB ⟨s0, a0⟩ ⟨s1, a1⟩ ⟨s2, a2⟩ =
      straightSpecB ⟨.heart, a0⟩ ⟨.heart, a1⟩ ⟨.heart, a2⟩ := rfl
  rw [h1, h2]
  clear h1 h2
  revert a0 a1 a2
  decide

/-- C8: placing on an occupied cell, placing with no held card, or acting
after game over leaves the whole session (grid, deck, current card, score,
game-over flag, log) unchanged, with no error reported. -/
theorem placeCard_noop (s : GameState) (i : Fin 9) :
    (s.gameOver = true → placeCard s i = s) ∧
    ((s.grid i).isSome = true → placeCard s i = s) ∧
    (s.currentCard = none → placeCard s i = s) := by
  refine ⟨?_, ?_, ?_⟩ <;> intro h
  · simp [placeCard, h]
  · unfold placeCard
    split
    · rfl
    · simp [h]
  · unfold placeCard
    split
    · rfl
    · split
      · rfl
      · rw [h]

theorem placeCard_noop_witness :
    placeCard ⟨[], fun _ => none, some ⟨.spade, .king⟩, 0, true, []⟩ 3 =
      ⟨[], fun _ => none, some ⟨.spade, .king⟩, 0, true, []⟩ :=
  (placeCard_noop ⟨[], fun _ => none, some ⟨.spade, .king⟩, 0, true, []⟩ 3).1
    rfl

/-- C10: when the deck is empty but a card is still held (a state the
game-over exhaustion rule does not cover, as that needs both exhausted),
the remaining-card query returns the negative value -1. -/
theorem remainingCards_negative (s : GameState) (h1 : s.deck = [])
    (h2 : s.currentCard.isSome = true) :
    remainingCards s = -1 ∧
      (s.deck.isEmpty && s.currentCard.isNone) = false := by
  unfold remainingCards
  rw [h1]
  rcases o : s.currentCard with _ | c
  · rw [o] at h2
    simp at h2
  · simp [o]

theorem remainingCards_negative_witness :
    remainingCards ⟨[], fun _ => none, some ⟨.club, .r7⟩, 0, false, []⟩ = -1 ∧
      (([] : List Card).isEmpty &&
        (some (Card.mk .club .r7)).isNone) = false :=
  remainingCards_negative ⟨[], fun _ => none, some ⟨.club, .r7⟩, 0, false, []⟩
    rfl rfl

/-- C5: the points a placement adds to the score are the sum of the matched
patterns' base points (flush 50, straight 100, three of a kind 100, straight
flush 200) times the combo multiplier, which is 1, 2, 4 for 1, 2, 3
simultaneous patterns and 8 for 4 or more (the lookup caps N at 4). -/
theorem scoring_formula :
    (∀ (s : GameState) (i : Fin 9) (c : Card),
      s.gameOver = false → s.grid i = none → s.currentCard = some c →
      (placeCard s i).score =
        s.score + basePointsTotal (updateGrid s.grid i c) *
          comboMultiplier (comboCount (updateGrid s.grid i c))) ∧
    comboMultiplier 1 = 1 ∧ comboMultiplier 2 = 2 ∧ comboMultiplier 3 = 4 ∧
    (∀ n, 4 ≤ n → comboMultiplier n = 8) ∧
    basePoints .flush = 50 ∧ basePoints .straight = 100 ∧
    basePoints .threeOfAKind = 100 ∧ basePoints .straightFlush = 200 := by
  refine ⟨?_, rfl, rfl, rfl, ?_, rfl, rfl, rfl, rfl⟩
  · intro s i c h1 h2 h3
    rw [placeCard_eq s i c h1 h2 h3]
    show s.score + evalPoints _ = _
    rw [evalPoints_eq]
  · intro n hn
    unfold comboMultiplier
    have h4 : min n 4 = 4 := by omega
    rw [h4]

theorem scoring_formula_witness :
    (placeCard ⟨[], fun _ => none, some ⟨.heart, .ace⟩, 5, false, []⟩ 0).score =
      5 + basePointsTotal (updateGrid (fun _ => none) 0 ⟨.heart, .ace⟩) *
        comboMultiplier (comboCount (updateGrid (fun _ => none) 0 ⟨.heart, .ace⟩)) :=
  scoring_formula.1 ⟨[], fun _ => none, some ⟨.heart, .ace⟩, 5, false, []⟩ 0
    ⟨.heart, .ace⟩ rfl rfl rfl

/-- C6: an evaluation pass reports a pattern only for triples with all 3
cells occupied, empties exactly the union of the matched triples' cells
(each such cell once, the clear set being a set), and leaves every other
cell's content untouched. -/
theorem evaluation_pass (g : Grid) :
    (∀ p ∈ foundPatterns g, ∀ i ∈ p, (g i).isSome = true) ∧
    (∀ i : Fin 9, i ∈ cellsToClear g → afterPatterns g i = none) ∧
    (∀ i : Fin 9, i ∉ cellsToClear g → afterPatterns g i = g i) := by
  refine ⟨?_, ?_, ?_⟩
  · intro p hp i hi
    have hmem := List.mem_filter.mp hp
    have hvalid := hmem.2
    rw [isValidTriple, Bool.and_eq_true_iff] at hvalid
    have hlen : (patternCards g p).length = 3 := by
      simpa using hvalid.1
    have hplen : p.length = 3 := by
      have h8 := hmem.1
      simp [PATTERNS] at h8
      rcases h8 with rfl | rfl | rfl | rfl | rfl | rfl | rfl | rfl <;> rfl
    have hfull : ∀ j ∈ p, (g j).isSome :=
      List.filterMap_length_eq_length.mp (by rw [← hplen] at hlen; exact hlen)
    exact hfull i hi
  · intro i hi
    unfold afterPatterns
    by_cases hcc : comboCount g = 0
    · have hfp : foundPatterns g = [] := List.length_eq_zero.mp hcc
      unfold cellsToClear at hi
      rw [hfp] at hi
      cases hi
    · simp only [hcc, if_neg]
      simp [clearCells, hi]
  · intro i hi
    unfold afterPatterns
    by_cases hcc : comboCount g = 0
    · rw [if_pos hcc]
    · rw [if_neg hcc]
      simp [clearCells, hi]

/-- A concrete grid holding the straight flush ace-2-3 of hearts in the top
row and an unrelated club 5 in the centre. -/
def wgrid : Grid := fun i =>
  if i = 0 then some ⟨.heart, .ace⟩
  else if i = 1 then some ⟨.heart, .r2⟩
  else if i = 2 then some ⟨.heart, .r3⟩
  else if i = 4 then some ⟨.club, .r5⟩
  else none

theorem evaluation_pass_witness :
    afterPatterns wgrid 0 = none ∧ afterPatterns wgrid 4 = wgrid 4 :=
  ⟨(evaluation_pass wgrid).2.1 0 (by decide),
   (evaluation_pass wgrid).2.2 4 (by decide)⟩

/-- C7: after a placement (clearing and drawing included), the game-over
flag is set exactly when the updated grid is full with no valid pattern, or
the updated deck is empty with no card held; in particular exhaustion of
deck and hand ends the game even on an unfilled grid. -/
theorem gameOver_condition (s : GameState) (i : Fin 9) (c : Card)
    (h1 : s.gameOver = false) (h2 : s.grid i = none)
    (h3 : s.currentCard = some c) :
    (placeCard s i).gameOver =
      ((gridFullB (placeCard s i).grid &&
        !hasValidPatterns (placeCard s i).grid) ||
       ((placeCard s i).deck.isEmpty && (placeCard s i).currentCard.isNone)) ∧
    ((placeCard s i).deck = [] → (placeCard s i).currentCard = none →
      (placeCard s i).gameOver = true) := by
  rw [placeCard_eq s i c h1 h2 h3]
  refine ⟨rfl, ?_⟩
  intro hd hcur
  have hd' : (drawCard s.deck).2 = [] := hd
  have hcur' : (drawCard s.deck).1 = none := hcur
  show checkGameOverB _ _ _ = true
  unfold checkGameOverB
  rw [hd', hcur']
  simp

/-- A session about to place its last card: empty deck, one card in hand. -/
def exhaustState : GameState :=
  ⟨[], fun _ => none, some ⟨.spade, .ace⟩, 0, false, []⟩

theorem gameOver_condition_witness : (placeCard exhaustState 0).gameOver = true :=
  (gameOver_condition exhaustState 0 ⟨.spade, .ace⟩ rfl rfl rfl).2
    (by decide) (by decide)

/-- C9: the operations preserve card conservation: a started session has no
card twice among deck, grid and hand (each cell holds at most one card by
construction and the deck is duplicate-free), and a placement preserves
that invariant while the deck only loses cards (the new deck is a sublist
of the old), so cleared cards never return to the deck. -/
theorem card_conservation :
    (∀ (S : Int → ℚ) (codes : List Nat), Inv (startGame S codes)) ∧
    (∀ (s : GameState) (i : Fin 9), Inv s →
      Inv (placeCard s i) ∧ (placeCard s i).deck.Sublist s.deck) := by
  constructor
  · intro S codes
    exact inv_of_fresh_deck (shuffledDeck S codes) (shuffledDeck_nodup S codes)
  · intro s i hInv
    cases hgo : s.gameOver with
    | true =>
      rw [placeCard_guard_gameOver s i hgo]
      exact ⟨hInv, List.Sublist.refl _⟩
    | false =>
      cases hoc : s.grid i with
      | some c0 =>
        rw [placeCard_guard_occupied s i (by rw [hoc]; rfl)]
        exact ⟨hInv, List.Sublist.refl _⟩
      | none =>
        cases hcur : s.currentCard with
        | none =>
          rw [placeCard_guard_nocard s i hcur]
          exact ⟨hInv, List.Sublist.refl _⟩
        | some c =>
          rw [placeCard_eq s i c hgo hoc hcur]
          refine ⟨?_, drawCard_sublist s.deck⟩
          show ((drawCard s.deck).2 ++
            gridCards (afterPatterns (updateGrid s.grid i c)) ++
            (drawCard s.deck).1.toList).Nodup
          rw [List.nodup_iff_count_le_one]
          intro x
          have hone := List.nodup_iff_count_le_one.mp hInv x
          unfold cardsOf at hone
          rw [hcur] at hone
          simp only [List.count_append] at hone ⊢
          have hd : (drawCard s.deck).2.count x +
              (drawCard s.deck).1.toList.count x = s.deck.count x := by
            rw [← List.count_append, drawCard_append]
          have hg2 : (gridCards (afterPatterns (updateGrid s.grid i c))).count x ≤
              (gridCards (updateGrid s.grid i c)).count x :=
            (gridCards_afterPatterns_sublist _).count_le x
          have hg1 : (gridCards (updateGrid s.grid i c)).count x =
              (c :: gridCards s.grid).count x :=
            (gridCards_update_perm s.grid i c hoc).count_eq x
          by_cases hcx : c = x <;>
            simp only [List.count_cons, Option.toList_some, hcx] at hone hg1 <;>
            simp_all <;> omega

/-- A two-card session used to exercise the conservation theorem. -/
def invState : GameState :=
  ⟨[⟨.club, .r9⟩, ⟨.diamond, .r4⟩], fun _ => none,
    some ⟨.heart, .ace⟩, 0, false, []⟩

theorem card_conservation_witness :
    Inv (placeCard invState 2) ∧ (placeCard invState 2).deck.Sublist invState.deck :=
  card_conservation.2 invState 2 (by unfold Inv; decide)

end PokerGrid
